import Mathlib

/-!
Verification of the concurrency micro-benchmark suite (atividade 11-11).

Each Rust scenario binary (`src/bin/atvd-*/main.rs`) is shallowly embedded:
pure computations become Lean functions on `Nat`/`Int`/`ℚ`, the concurrent
queue/worker machinery becomes explicit step relations on states, and the
fallible input parsing becomes `Except`-returning functions.  Machine
integers are modelled as `Nat`/`Int`; where 64-bit wraparound could matter
the reduction `% 2 ^ 64` is written explicitly.
-/

namespace Atvd

/-! ## Shared measurement harness (identical in every `atvd-*` binary)

`measure_runs` in the Rust sources executes the workload once per run index
`0 .. RUNS`, pushing each elapsed wall-clock duration and each output, then
averages the durations after `skip(1)` over `RUNS - 1`.  Wall-clock time is
nondeterministic, so the embedding takes the observed duration of each run
as a function `time : Nat → ℚ` (run index to seconds); the loop is the map
over `List.range RUNS`. -/

def RUNS : Nat := 5

def measure_runs {T : Type} (job : Nat → T) (time : Nat → ℚ) :
    ℚ × List ℚ × List T :=
  let durations := (List.range RUNS).map time
  let outputs := (List.range RUNS).map job
  ((durations.drop 1).sum / ((RUNS : ℚ) - 1), durations, outputs)

/-! ## atvd-11: thread pool over fixed task blocks -/

def TASK_COUNT : Nat := 400

def BLOCK_SIZE : Nat := 1000

/-- Embedding of `generate_data`: element `idx` is
`((idx as i32 * 31 + 7) % 1_000) - 500`.  For every index produced by the
program (`idx < 400_000`) the `i32` arithmetic cannot overflow, and the Rust
`%` on the non-negative left operand agrees with `Int.emod`. -/
def generate_data (len : Nat) : List Int :=
  (List.range len).map (fun idx => ((idx : Int) * 31 + 7) % 1000 - 500)

/-- Embedding of `build_tasks`: task `t` is the half-open block
`[t * block_size, t * block_size + block_size)`. -/
def build_tasks (task_count block_size : Nat) : List (Nat × Nat) :=
  (List.range task_count).map
    (fun task => (task * block_size, task * block_size + block_size))

/-- The per-task work `data[start..end].iter().map(|&v| v as i64).sum()`,
with the Rust slice written as drop/take. -/
def block_sum (data : List Int) (start stop : Nat) : Int :=
  ((data.drop start).take (stop - start)).sum

/-- Embedding of `sequential_process`: fold the block sums over the task
list in order, starting from `0`. -/
def sequential_process (data : List Int) (tasks : List (Nat × Nat)) : Int :=
  tasks.foldl (fun total t => total + block_sum data t.1 t.2) 0

/-- Embedding of `run_with_thread_pool`.  The `workers = 0` case is the
`assert!(workers > 0)` failure, modelled as `none`.  Otherwise the workers
dequeue each enqueued job exactly once (the receiver sits behind a mutex, so
no job is duplicated or lost), compute its block sum, and send it on the
result channel; the main thread adds up `tasks.len()` received partial
sums.  The aggregate effect of any scheduling is therefore the fold of the
block sums over `order`, the sequence of jobs in completion order — a
permutation of the task list. -/
def run_with_thread_pool (data : List Int) (order : List (Nat × Nat))
    (workers : Nat) : Option Int :=
  if workers = 0 then none
  else some (order.foldl (fun total t => total + block_sum data t.1 t.2) 0)

theorem foldl_add_eq_sum_map (data : List Int) (l : List (Nat × Nat))
    (a : Int) :
    l.foldl (fun total t => total + block_sum data t.1 t.2) a
      = a + (l.map (fun t => block_sum data t.1 t.2)).sum := by
  induction l generalizing a with
  | nil => simp
  | cons x xs ih =>
      simp only [List.foldl_cons, List.map_cons, List.sum_cons, ih]
      ring

/-- C1: for every worker count `W ≥ 1` and every dequeue order (any
permutation of the task list), the thread-pool total equals the sequential
reference total; in particular, on the fixed dataset of 400 blocks of 1000
elements, each of `W ∈ {2, 4, 8}` yields exactly the sequential total. -/
theorem C1_pool_total_eq_sequential :
    (∀ (data : List Int) (tasks order : List (Nat × Nat)) (workers : Nat),
        1 ≤ workers → order.Perm tasks →
        run_with_thread_pool data order workers
          = some (sequential_process data tasks))
    ∧ (∀ (order : List (Nat × Nat)) (workers : Nat),
        workers = 2 ∨ workers = 4 ∨ workers = 8 →
        order.Perm (build_tasks TASK_COUNT BLOCK_SIZE) →
        run_with_thread_pool (generate_data (TASK_COUNT * BLOCK_SIZE)) order
            workers
          = some (sequential_process (generate_data (TASK_COUNT * BLOCK_SIZE))
              (build_tasks TASK_COUNT BLOCK_SIZE))) := by
  have general :
      ∀ (data : List Int) (tasks order : List (Nat × Nat)) (workers : Nat),
        1 ≤ workers → order.Perm tasks →
        run_with_thread_pool data order workers
          = some (sequential_process data tasks) := by
    intro data tasks order workers hw hperm
    have hw0 : workers ≠ 0 := Nat.one_le_iff_ne_zero.mp hw
    unfold run_with_thread_pool sequential_process
    rw [if_neg hw0]
    rw [foldl_add_eq_sum_map, foldl_add_eq_sum_map]
    have := (hperm.map (fun t => block_sum data t.1 t.2)).sum_eq
    rw [this]
  refine ⟨general, ?_⟩
  intro order workers hw hperm
  have hw1 : 1 ≤ workers := by rcases hw with h | h | h <;> omega
  exact general _ _ order workers hw1 hperm

/-- Witness for C1: a concrete small instance (reversed order, 2 workers)
and the concrete scenario instance (identity order, 4 workers). -/
theorem C1_witness :
    run_with_thread_pool (generate_data 6) [(4, 6), (2, 4), (0, 2)] 2
        = some (sequential_process (generate_data 6) (build_tasks 3 2))
    ∧ run_with_thread_pool (generate_data (TASK_COUNT * BLOCK_SIZE))
          (build_tasks TASK_COUNT BLOCK_SIZE) 4
        = some (sequential_process (generate_data (TASK_COUNT * BLOCK_SIZE))
            (build_tasks TASK_COUNT BLOCK_SIZE)) :=
  ⟨C1_pool_total_eq_sequential.1 (generate_data 6) (build_tasks 3 2)
      [(4, 6), (2, 4), (0, 2)] 2 (by decide) (by decide),
   C1_pool_total_eq_sequential.2 (build_tasks TASK_COUNT BLOCK_SIZE) 4
      (Or.inr (Or.inl rfl)) (List.Perm.refl _)⟩

/-- C3: `measure_runs` runs the workload once per index `0 .. RUNS`,
records all `RUNS` durations and outputs, and its reported mean is the
arithmetic mean of the durations at indices `1 .. RUNS` only; the warm-up
duration at index 0 never affects the mean. -/
theorem C3_mean_excludes_warmup (T : Type) (job : Nat → T)
    (time time' : Nat → ℚ)
    (hagree : ∀ i, 1 ≤ i → i < RUNS → time i = time' i) :
    (measure_runs job time).2.1 = (List.range RUNS).map time
    ∧ (measure_runs job time).2.2 = (List.range RUNS).map job
    ∧ (measure_runs job time).2.1.length = RUNS
    ∧ (measure_runs job time).1 = (time 1 + time 2 + time 3 + time 4) / 4
    ∧ (measure_runs job time).1 = (measure_runs job time').1 := by
  have hmean : ∀ f : Nat → ℚ,
      (measure_runs job f).1 = (f 1 + f 2 + f 3 + f 4) / 4 := by
    intro f
    show ((((List.range RUNS).map f).drop 1).sum / ((RUNS : ℚ) - 1)) = _
    have : List.range RUNS = [0, 1, 2, 3, 4] := by decide
    rw [this]
    simp [RUNS]
    ring
  refine ⟨rfl, rfl, by simp [measure_runs, RUNS], hmean time, ?_⟩
  rw [hmean time, hmean time']
  rw [hagree 1 (by decide) (by decide), hagree 2 (by decide) (by decide),
    hagree 3 (by decide) (by decide), hagree 4 (by decide) (by decide)]

/-- Witness for C3: an artificially slow warm-up run (index 0 takes 1000
seconds) yields the same mean as one where index 0 is instantaneous. -/
theorem C3_witness :
    (measure_runs (fun r => r) (fun i => if i = 0 then 1000 else (i : ℚ))).2.1
        = (List.range RUNS).map (fun i => if i = 0 then 1000 else (i : ℚ))
    ∧ (measure_runs (fun r => r) (fun i => if i = 0 then 1000 else (i : ℚ))).2.2
        = (List.range RUNS).map (fun r => r)
    ∧ (measure_runs (fun r => r)
        (fun i => if i = 0 then 1000 else (i : ℚ))).2.1.length = RUNS
    ∧ (measure_runs (fun r => r) (fun i => if i = 0 then 1000 else (i : ℚ))).1
        = (((1 : ℚ)) + 2 + 3 + 4) / 4
    ∧ (measure_runs (fun r => r) (fun i => if i = 0 then 1000 else (i : ℚ))).1
        = (measure_runs (fun r => r) (fun i => (i : ℚ))).1 := by
  have h := C3_mean_excludes_warmup Nat (fun r => r)
    (fun i => if i = 0 then 1000 else (i : ℚ)) (fun i => (i : ℚ))
    (by
      intro i h1 _
      have : i ≠ 0 := by omega
      simp [this])
  simpa using h

/-! ## atvd-8: producer-consumer bookkeeping -/

def PRODUCER_COUNT : Nat := 2

def CONSUMER_COUNT : Nat := 2

def QUEUE_CAPACITY : Nat := 32

def DEFAULT_TOTAL_ITEMS : Nat := 200

structure ProducerConsumerResult where
  produced : Nat
  consumed : Nat
  sentinels : Nat
  deadlock_detected : Bool
deriving DecidableEq

/-- Embedding of the tail of `run_producer_consumer`: after joining all
threads, the loaded counters are packed into the run result, and
`deadlock_detected` is exactly
`produced != total_items || consumed != total_items || sentinels != CONSUMER_COUNT`. -/
def producer_consumer_result (produced consumed sentinels total_items : Nat) :
    ProducerConsumerResult :=
  { produced := produced
    consumed := consumed
    sentinels := sentinels
    deadlock_detected :=
      produced != total_items || consumed != total_items
        || sentinels != CONSUMER_COUNT }

/-- C5: the deadlock/lost-work detector is the exact comparison of counts:
the flag is set iff produced or consumed differs from `N` or the sentinel
count differs from the consumer count; completeness holds exactly when
`produced = consumed = N` and `sentinels = CONSUMER_COUNT`. -/
theorem C5_deadlock_flag_exact (p c s N : Nat) :
    ((producer_consumer_result p c s N).deadlock_detected = true
      ↔ (p ≠ N ∨ c ≠ N ∨ s ≠ CONSUMER_COUNT))
    ∧ ((producer_consumer_result p c s N).deadlock_detected = false
      ↔ (p = N ∧ c = N ∧ s = CONSUMER_COUNT)) := by
  constructor
  · simp [producer_consumer_result]
    tauto
  · simp [producer_consumer_result]
    tauto

/-- Embedding of the producer-share computation in `run_producer_consumer`:
`items_to_produce = base_items + if producer_id < remainder { 1 } else { 0 }`
with `base_items = total_items / producer_count` and
`remainder = total_items % producer_count`. -/
def items_to_produce (total_items producer_count producer_id : Nat) : Nat :=
  total_items / producer_count
    + if producer_id < total_items % producer_count then 1 else 0

theorem sum_const_add_indicator (q r : Nat) :
    ∀ m : Nat,
      ((List.range m).map (fun id => q + if id < r then 1 else 0)).sum
        = m * q + min m r := by
  intro m
  induction m with
  | zero => simp
  | succ m ih =>
      rw [List.range_succ]
      simp only [List.map_append, List.sum_append, ih, List.map_cons,
        List.map_nil, List.sum_cons, List.sum_nil]
      by_cases h : m < r
      · simp only [if_pos h]
        have h1 : min m r = m := by omega
        have h2 : min (m + 1) r = m + 1 := by omega
        rw [h1, h2]
        ring_nf
      · simp only [if_neg h]
        have h1 : min m r = r := by omega
        have h2 : min (m + 1) r = r := by omega
        rw [h1, h2]
        ring_nf

/-- C6: producer `id` (0-based) is assigned `⌊N / P⌋` items plus one extra
exactly when `id < N % P`, and the per-producer shares over all `P`
producers sum to exactly `N`. -/
theorem C6_producer_shares (N P : Nat) (hP : 1 ≤ P) (hNP : P ≤ N) :
    ((List.range P).map (items_to_produce N P)).sum = N
    ∧ ∀ id, items_to_produce N P id
        = N / P + (if id < N % P then 1 else 0) := by
  refine ⟨?_, fun id => rfl⟩
  have hsum := sum_const_add_indicator (N / P) (N % P) P
  have hmod : N % P < P := Nat.mod_lt _ (by omega)
  have hmin : min P (N % P) = N % P := by omega
  have heq : ((List.range P).map (items_to_produce N P)).sum
      = P * (N / P) + N % P := by
    rw [show items_to_produce N P
        = fun id => N / P + if id < N % P then 1 else 0 from rfl]
    rw [hsum, hmin]
  rw [heq]
  exact Nat.div_add_mod N P

/-- Witness for C6: `N = 5`, `P = 2`: shares are `[3, 2]`, summing to 5. -/
theorem C6_witness :
    ((List.range 2).map (items_to_produce 5 2)).sum = 5
    ∧ ∀ id, items_to_produce 5 2 id = 5 / 2 + (if id < 5 % 2 then 1 else 0) :=
  C6_producer_shares 5 2 (by decide) (by decide)

/-! ## atvd-9: vector sum and the analytic oracle -/

def DEFAULT_VECTOR_LEN : Nat := 20000000

/-- Embedding of `generate_vector`: `(0..len as i64).collect()`, the
integers `0, 1, …, len - 1`. -/
def generate_vector (len : Nat) : List Int :=
  (List.range len).map (fun i => (i : Int))

/-- Embedding of `arithmetic_series_sum`:
`if last_value < 0 { 0 } else { last_value * (last_value + 1) / 2 }`. -/
def arithmetic_series_sum (last_value : Int) : Int :=
  if last_value < 0 then 0 else last_value * (last_value + 1) / 2

/-- Embedding of `sequential_sum`: `data.iter().copied().sum()`. -/
def sequential_sum (data : List Int) : Int := data.sum

theorem generate_vector_sum_two_mul (len : Nat) :
    2 * sequential_sum (generate_vector len) = (len : Int) * ((len : Int) - 1) := by
  induction len with
  | zero => simp [sequential_sum, generate_vector]
  | succ n ih =>
      have hsplit : generate_vector (n + 1)
          = generate_vector n ++ [(n : Int)] := by
        simp [generate_vector, List.range_succ]
      unfold sequential_sum at ih ⊢
      rw [hsplit, List.sum_append, List.sum_cons, List.sum_nil]
      push_cast
      linarith

/-- C9: the analytic oracle agrees with the data: for every `len ≥ 1` the
sum of `generate_vector len` equals `arithmetic_series_sum (len - 1)`,
which equals `(len - 1) * len / 2`; and whenever `len ≤ 3 037 000 499`
every intermediate value of the `i64` computation fits in `i64` (the
largest being `(len - 1) * len`), so the exact-integer embedding coincides
with the 64-bit arithmetic the program performs. -/
theorem C9_oracle_matches_data (len : Nat) (hlen : 1 ≤ len) :
    sequential_sum (generate_vector len)
        = arithmetic_series_sum ((len : Int) - 1)
    ∧ arithmetic_series_sum ((len : Int) - 1)
        = ((len : Int) - 1) * (len : Int) / 2
    ∧ (len ≤ 3037000499 →
        ((len : Int) - 1) * (len : Int) ≤ 2 ^ 63 - 1) := by
  have hpos : (0 : Int) ≤ (len : Int) - 1 := by
    have : (1 : Int) ≤ (len : Int) := by exact_mod_cast hlen
    omega
  have hform : arithmetic_series_sum ((len : Int) - 1)
      = ((len : Int) - 1) * (len : Int) / 2 := by
    unfold arithmetic_series_sum
    rw [if_neg (by omega)]
    ring_nf
  have hmain : sequential_sum (generate_vector len)
      = arithmetic_series_sum ((len : Int) - 1) := by
    rw [hform]
    have h2 := generate_vector_sum_two_mul len
    have : ((len : Int) - 1) * (len : Int)
        = 2 * sequential_sum (generate_vector len) := by rw [h2]; ring
    rw [this, Int.mul_ediv_cancel_left _ (by norm_num)]
  refine ⟨hmain, hform, ?_⟩
  intro hbound
  have hle : (len : Int) ≤ 3037000499 := by exact_mod_cast hbound
  have h1 : ((len : Int) - 1) * (len : Int)
      ≤ (3037000499 - 1) * 3037000499 := by
    apply mul_le_mul (by omega) hle (by positivity) (by norm_num)
  calc ((len : Int) - 1) * (len : Int)
      ≤ (3037000499 - 1) * 3037000499 := h1
    _ ≤ 2 ^ 63 - 1 := by norm_num

/-- Witness for C9: `len = 5`: the data sums to 10, the oracle at
`last_value = 4` gives 10, and the overflow bound holds. -/
theorem C9_witness :
    sequential_sum (generate_vector 5)
        = arithmetic_series_sum ((5 : Int) - 1)
    ∧ arithmetic_series_sum ((5 : Int) - 1)
        = ((5 : Int) - 1) * (5 : Int) / 2
    ∧ ((5 : Nat) ≤ 3037000499 →
        ((5 : Int) - 1) * (5 : Int) ≤ 2 ^ 63 - 1) := by
  have h := C9_oracle_matches_data 5 (by decide)
  exact_mod_cast h

/-! ## Sizing-parameter input handling (atvd-7 / atvd-8 / atvd-9 / atvd-10)

Every scenario calls `read_*` for one sizing parameter: a command-line
argument when given, otherwise a prompted line on standard input.  Parsing
is Rust's `str::parse::<usize>`: an optional leading `+`, then at least one
ASCII digit, value at most `usize::MAX` (64-bit). -/

def USIZE_MAX : Nat := 2 ^ 64 - 1

/-- Model of `str::parse::<usize>()`: `none` on the empty string, on any
non-digit character (after an optional single leading `+`), and on values
exceeding `usize::MAX`. -/
def parse_usize (s : String) : Option Nat :=
  let digits :=
    match s.data with
    | '+' :: rest => rest
    | l => l
  if digits.isEmpty then none
  else if digits.all Char.isDigit then
    let v := digits.foldl (fun acc c => acc * 10 + (c.toNat - 48)) 0
    if v ≤ USIZE_MAX then some v else none
  else none

def DEFAULT_SAMPLES_PER_THREAD : Nat := 200000

/-- Embedding of atvd-10's `read_samples_per_thread` on the
command-line-argument path: `arg.parse::<usize>()` mapped to the input
error message. -/
def read_samples_per_thread (arg : String) : Except String Nat :=
  match parse_usize arg with
  | some n => Except.ok n
  | none =>
      Except.error ("Argumento invalido para amostras por thread: " ++ arg)

/-- Observable outcome of one process run: exit code, the sizing value the
run proceeds with on standard output (results), and any standard-error
message. -/
structure ProcessOutcome where
  exit_code : Nat
  stdout_results : Option Nat
  stderr_msg : Option String
deriving DecidableEq

/-- Embedding of atvd-10's `main` up to the sizing validation, for an
invocation with a command-line argument: a parse failure is printed to
standard error and the process exits with status 1 before anything is
printed on standard output; `0` trips the `assert!(base_samples > 0)`
(panic, exit 101); otherwise the run proceeds and prints results. -/
def atvd10_main (arg : String) : ProcessOutcome :=
  match read_samples_per_thread arg with
  | Except.error e => { exit_code := 1, stdout_results := none, stderr_msg := some e }
  | Except.ok n =>
      if n = 0 then
        { exit_code := 101, stdout_results := none
          stderr_msg := some "K (amostras por thread) precisa ser positivo" }
      else
        { exit_code := 0, stdout_results := some n, stderr_msg := none }

/-- C7: every sizing argument that does not parse as a non-negative integer
makes the process write the input-error message to standard error and exit
with a non-zero status, with no results on standard output. -/
theorem C7_invalid_arg_exits_nonzero (arg : String)
    (h : parse_usize arg = none) :
    (atvd10_main arg).exit_code ≠ 0
    ∧ (atvd10_main arg).stderr_msg
        = some ("Argumento invalido para amostras por thread: " ++ arg)
    ∧ (atvd10_main arg).stdout_results = none := by
  unfold atvd10_main read_samples_per_thread
  rw [h]
  exact ⟨Nat.one_ne_zero, rfl, rfl⟩

/-- Witness for C7: the argument `"abc"` does not parse, so the process
exits non-zero with the error on standard error and nothing on standard
output. -/
theorem C7_witness :
    parse_usize "abc" = none
    ∧ (atvd10_main "abc").exit_code ≠ 0
    ∧ (atvd10_main "abc").stderr_msg
        = some ("Argumento invalido para amostras por thread: " ++ "abc")
    ∧ (atvd10_main "abc").stdout_results = none := by
  have hparse : parse_usize "abc" = none := by decide
  exact ⟨hparse, C7_invalid_arg_exits_nonzero "abc" hparse⟩

/-- Model of Rust's `str::trim`: strip whitespace from both ends.  The
Rust version strips all Unicode whitespace; the inputs of interest here
are ASCII, for which `Char.isWhitespace` agrees. -/
def rust_trim (s : String) : String :=
  ⟨((s.data.dropWhile Char.isWhitespace).reverse.dropWhile
      Char.isWhitespace).reverse⟩

/-- Embedding of atvd-8's `read_total_items` on the interactive path
(no command-line argument): the prompted line is trimmed; an empty line
falls back to `DEFAULT_TOTAL_ITEMS`, otherwise the line must parse. -/
def read_total_items (line : String) : Except String Nat :=
  let trimmed := rust_trim line
  if trimmed.isEmpty then Except.ok DEFAULT_TOTAL_ITEMS
  else
    match parse_usize trimmed with
    | some n => Except.ok n
    | none =>
        Except.error ("Entrada invalida para total de itens: " ++ trimmed)

/-- Embedding of atvd-9's `read_vector_len` on the interactive path. -/
def read_vector_len (line : String) : Except String Nat :=
  let trimmed := rust_trim line
  if trimmed.isEmpty then Except.ok DEFAULT_VECTOR_LEN
  else
    match parse_usize trimmed with
    | some n => Except.ok n
    | none =>
        Except.error ("Entrada invalida para tamanho do vetor: " ++ trimmed)

/-- Embedding of atvd-10's `read_samples_per_thread` on the interactive
path. -/
def read_samples_per_thread_stdin (line : String) : Except String Nat :=
  let trimmed := rust_trim line
  if trimmed.isEmpty then Except.ok DEFAULT_SAMPLES_PER_THREAD
  else
    match parse_usize trimmed with
    | some n => Except.ok n
    | none => Except.error ("Entrada invalida para K: " ++ trimmed)

/-- Embedding of atvd-7's `read_thread_count` on the interactive path:
the trimmed line is parsed directly — there is no empty-line default. -/
def read_thread_count (line : String) : Except String Nat :=
  match parse_usize (rust_trim line) with
  | some n => Except.ok n
  | none =>
      Except.error ("Entrada invalida para threads: " ++ rust_trim line)

/-- C8 counterexample: in the thread-count scenario (atvd-7) an empty
input line is an input error, not a fall-back to a default — refuting the
claim that *every* scenario with a sizing parameter defaults on empty
input. -/
theorem C8_counterexample :
    read_thread_count "\n"
      = Except.error "Entrada invalida para threads: " := by
  rfl

/-- C8 (amended): when no command-line argument is given, the item-count
scenario (atvd-8), the vector-length scenario (atvd-9) and the
samples-per-thread scenario (atvd-10) treat any all-whitespace input line
as a fall-back to their documented defaults (200, 20 000 000 and 200 000),
while the thread-count scenario (atvd-7) reports an input error on an
empty line. -/
theorem C8_empty_input_defaults (line : String) (h : rust_trim line = "") :
    read_total_items line = Except.ok DEFAULT_TOTAL_ITEMS
    ∧ read_vector_len line = Except.ok DEFAULT_VECTOR_LEN
    ∧ read_samples_per_thread_stdin line = Except.ok DEFAULT_SAMPLES_PER_THREAD
    ∧ ∀ n, read_thread_count line ≠ Except.ok n := by
  have hempty : (rust_trim line).isEmpty = true := by rw [h]; rfl
  have hparse : parse_usize (rust_trim line) = none := by rw [h]; decide
  refine ⟨?_, ?_, ?_, ?_⟩
  · unfold read_total_items
    rw [if_pos hempty]
  · unfold read_vector_len
    rw [if_pos hempty]
  · unfold read_samples_per_thread_stdin
    rw [if_pos hempty]
  · intro n
    unfold read_thread_count
    rw [hparse]
    intro hcontr
    exact Except.noConfusion hcontr

/-- Witness for C8 (amended): the bare newline read for an empty input
line. -/
theorem C8_witness :
    read_total_items "\n" = Except.ok DEFAULT_TOTAL_ITEMS
    ∧ read_vector_len "\n" = Except.ok DEFAULT_VECTOR_LEN
    ∧ read_samples_per_thread_stdin "\n" = Except.ok DEFAULT_SAMPLES_PER_THREAD
    ∧ ∀ n, read_thread_count "\n" ≠ Except.ok n :=
  C8_empty_input_defaults "\n" (by decide)

/-! ## atvd-8: the bounded queue never exceeds its capacity

The scenario's queue is `mpsc::sync_channel::<i32>(QUEUE_CAPACITY)`, a
bounded channel whose documented contract is: `send` blocks the producer
while the buffer holds `capacity` messages, and `recv` removes the oldest
message.  `QStep` is that contract as a transition relation on the buffer
contents: a send is enabled only below capacity, a receive removes the
head. -/

inductive QStep (C : Nat) {α : Type} : List α → List α → Prop
  | send (x : α) (q : List α) : q.length < C → QStep C q (q ++ [x])
  | recv (x : α) (q : List α) : QStep C (x :: q) q

/-- C4: starting from the empty queue, every sequence of blocked sends and
receives over the capacity-32 channel leaves the queue with at most
`QUEUE_CAPACITY = 32` items: the buffer can never exceed its capacity,
because a send is only enabled while the queue holds fewer than 32
items. -/
theorem C4_queue_within_capacity (α : Type) (q : List α)
    (h : Relation.ReflTransGen (QStep QUEUE_CAPACITY) ([] : List α) q) :
    q.length ≤ QUEUE_CAPACITY := by
  induction h with
  | refl => simp
  | tail _ hstep ih =>
      cases hstep with
      | send x q hlt => simpa using hlt
      | recv x q =>
          simp only [List.length_cons] at ih
          omega

/-- Witness for C4: one send from the empty queue reaches `[5]`, whose
length is within the capacity. -/
theorem C4_witness : ([5] : List Nat).length ≤ QUEUE_CAPACITY :=
  C4_queue_within_capacity Nat [5]
    (Relation.ReflTransGen.single (QStep.send 5 [] (by decide)))

/-! ## atvd-10: the XorShift64 generator

`u64` values are `Nat`s below `U64 = 2 ^ 64`; the wrapping left shifts are
written with an explicit `% U64`, the right shift cannot overflow. -/

def U64 : Nat := 2 ^ 64

structure XorShift64 where
  state : Nat
deriving DecidableEq

/-- Embedding of `XorShift64::new`: seed 0 is replaced by the fixed
non-zero constant `0xA511E9B7C3D2_1234`. -/
def XorShift64.new (seed : Nat) : XorShift64 :=
  ⟨if seed = 0 then 0xA511E9B7C3D21234 else seed⟩

/-- Embedding of `XorShift64::next_u64`:
`x ^= x << 13; x ^= x >> 7; x ^= x << 17`, each left shift wrapping at
64 bits; returns the emitted value together with the updated generator. -/
def XorShift64.next_u64 (g : XorShift64) : Nat × XorShift64 :=
  let x0 := g.state
  let x1 := x0 ^^^ ((x0 <<< 13) % U64)
  let x2 := x1 ^^^ (x1 >>> 7)
  let x3 := x2 ^^^ ((x2 <<< 17) % U64)
  (x3, ⟨x3⟩)

theorem xor_shl_mod_ne_zero (k x : Nat) (hk : 1 ≤ k) (hx : x < 2 ^ 64)
    (hnz : x ≠ 0) : x ^^^ ((x <<< k) % 2 ^ 64) ≠ 0 := by
  intro h0
  have heq : x = (x <<< k) % 2 ^ 64 := Nat.xor_eq_zero.mp h0
  rw [Nat.shiftLeft_eq] at heq
  have hmodeq : x ≡ x * 2 ^ k [MOD 2 ^ 64] := by
    unfold Nat.ModEq
    rw [Nat.mod_eq_of_lt hx, ← heq]
  have hle : x ≤ x * 2 ^ k :=
    Nat.le_mul_of_pos_right x (Nat.lt_of_lt_of_le Nat.zero_lt_one
      Nat.one_le_two_pow)
  have hdvd : 2 ^ 64 ∣ x * 2 ^ k - x := (Nat.modEq_iff_dvd' hle).mp hmodeq
  have hfact : x * 2 ^ k - x = x * (2 ^ k - 1) := by
    rw [Nat.mul_sub, Nat.mul_one]
  rw [hfact] at hdvd
  have hodd : Odd (2 ^ k - 1) := by
    rcases k with _ | k
    · omega
    · refine ⟨2 ^ k - 1, ?_⟩
      have h2 : 2 ^ (k + 1) = 2 * 2 ^ k := by ring
      have h1 : 1 ≤ 2 ^ k := Nat.one_le_two_pow
      omega
  have hcop : Nat.Coprime (2 ^ 64) (2 ^ k - 1) :=
    Nat.Coprime.pow_left 64 (Nat.coprime_two_left.mpr hodd)
  have hxdvd : 2 ^ 64 ∣ x := hcop.dvd_of_dvd_mul_right hdvd
  exact absurd hx (not_lt.mpr (Nat.le_of_dvd (Nat.pos_of_ne_zero hnz) hxdvd))

theorem xor_shr_ne_zero (k x : Nat) (hk : 1 ≤ k) (hnz : x ≠ 0) :
    x ^^^ (x >>> k) ≠ 0 := by
  intro h0
  have heq : x = x >>> k := Nat.xor_eq_zero.mp h0
  rw [Nat.shiftRight_eq_div_pow] at heq
  have hlt : x / 2 ^ k < x :=
    Nat.div_lt_self (Nat.pos_of_ne_zero hnz)
      (Nat.one_lt_two_pow (by omega))
  omega

theorem xor_shl_mod_lt (k x : Nat) (hx : x < 2 ^ 64) :
    x ^^^ ((x <<< k) % 2 ^ 64) < 2 ^ 64 :=
  Nat.xor_lt_two_pow hx (Nat.mod_lt _ (by positivity))

theorem xor_shr_lt (k x : Nat) (hx : x < 2 ^ 64) :
    x ^^^ (x >>> k) < 2 ^ 64 := by
  have hle : x >>> k ≤ x := by
    rw [Nat.shiftRight_eq_div_pow]
    exact Nat.div_le_self x (2 ^ k)
  exact Nat.xor_lt_two_pow hx (Nat.lt_of_le_of_lt hle hx)

/-- C10: the generator state is never zero: `XorShift64::new` maps every
64-bit seed (including 0, replaced by a fixed non-zero constant) to a
non-zero 64-bit state, and `next_u64` maps every non-zero 64-bit state to a
non-zero 64-bit state, so `state ≠ 0` is an invariant preserved by every
call and the all-zero fixed point is unreachable. -/
theorem C10_state_never_zero (seed : Nat) (g : XorShift64)
    (hseed : seed < U64) (hg : g.state < U64) (hnz : g.state ≠ 0) :
    (XorShift64.new seed).state ≠ 0 ∧ (XorShift64.new seed).state < U64
    ∧ (g.next_u64).2.state ≠ 0 ∧ (g.next_u64).2.state < U64 := by
  have hU : U64 = 2 ^ 64 := rfl
  refine ⟨?_, ?_, ?_, ?_⟩
  · unfold XorShift64.new
    by_cases h : seed = 0
    · rw [if_pos h]
      decide
    · rw [if_neg h]
      exact h
  · unfold XorShift64.new
    by_cases h : seed = 0
    · rw [if_pos h]
      rw [hU]
      norm_num
    · rw [if_neg h]
      exact hseed
  · show g.state ^^^ (g.state <<< 13 % U64) ^^^
      ((g.state ^^^ (g.state <<< 13 % U64)) >>> 7) ^^^
      (((g.state ^^^ (g.state <<< 13 % U64)) ^^^
        ((g.state ^^^ (g.state <<< 13 % U64)) >>> 7)) <<< 17 % U64) ≠ 0
    rw [hU] at hg ⊢
    exact xor_shl_mod_ne_zero 17 _ (by omega)
      (xor_shr_lt 7 _ (xor_shl_mod_lt 13 _ hg))
      (xor_shr_ne_zero 7 _ (by omega)
        (xor_shl_mod_ne_zero 13 _ (by omega) hg hnz))
  · show g.state ^^^ (g.state <<< 13 % U64) ^^^
      ((g.state ^^^ (g.state <<< 13 % U64)) >>> 7) ^^^
      (((g.state ^^^ (g.state <<< 13 % U64)) ^^^
        ((g.state ^^^ (g.state <<< 13 % U64)) >>> 7)) <<< 17 % U64) < U64
    rw [hU] at hg ⊢
    exact xor_shl_mod_lt 17 _ (xor_shr_lt 7 _ (xor_shl_mod_lt 13 _ hg))

/-- Witness for C10: seed 0 and the state 1. -/
theorem C10_witness :
    (XorShift64.new 0).state ≠ 0 ∧ (XorShift64.new 0).state < U64
    ∧ ((XorShift64.mk 1).next_u64).2.state ≠ 0
    ∧ ((XorShift64.mk 1).next_u64).2.state < U64 :=
  C10_state_never_zero 0 (XorShift64.mk 1) (by norm_num [U64])
    (by norm_num [U64]) (by decide)

/-! ## Shutdown protocol of the worker pools (atvd-8, atvd-11)

In both pipelines every message ever placed on the job channel is a real
job or a termination signal, and the enqueue order is: first every real
job (in atvd-8, the producers are joined before any sentinel is sent; in
atvd-11 the main thread sends every task first), then exactly one signal
per worker.  `producerStream` is that enqueued sequence.  A worker loops:
it takes the next message off the shared FIFO channel (the receiver is
behind a mutex, so each message reaches exactly one worker); on a real
job it keeps running, on a termination signal it stops, and on a closed
empty channel (`Err`) it also stops.  `PoolStep` is one worker's dequeue;
a worker status records how many termination signals it has observed. -/

def producerStream {α : Type} (tasks : List α) (workers : Nat) :
    List (Option α) :=
  tasks.map some ++ List.replicate workers none

inductive WStatus
  | active (sent : Nat)
  | stopped (sent : Nat)
deriving DecidableEq

def WStatus.isActive : WStatus → Bool
  | .active _ => true
  | .stopped _ => false

def initWorkers (workers : Nat) : List WStatus :=
  List.replicate workers (WStatus.active 0)

/-- One scheduler step of the worker pool: some still-active worker `i`
receives the message at the head of the queue.  A real job leaves it
active, a termination signal (`none`) stops it and bumps its observed
signal count, and a receive on the exhausted queue (the channel error
branch `Err(_) => break`) stops it without a signal. -/
inductive PoolStep {α : Type} :
    List (Option α) × List WStatus → List (Option α) × List WStatus → Prop
  | job (j : α) (rest : List (Option α)) (ws : List WStatus) (i s : Nat)
      (hi : ws.get? i = some (WStatus.active s)) :
      PoolStep (some j :: rest, ws) (rest, ws)
  | signal (rest : List (Option α)) (ws : List WStatus) (i s : Nat)
      (hi : ws.get? i = some (WStatus.active s)) :
      PoolStep (none :: rest, ws) (rest, ws.set i (WStatus.stopped (s + 1)))
  | closed (ws : List WStatus) (i s : Nat)
      (hi : ws.get? i = some (WStatus.active s)) :
      PoolStep (([] : List (Option α)), ws) ([], ws.set i (WStatus.stopped s))

/-- The pipeline invariant: the pending queue is some real jobs followed
by exactly as many termination signals as there are still-active workers,
every worker is either active having seen no signal or stopped having seen
exactly one, and the pool size is `W`. -/
def PoolInv {α : Type} (W : Nat) (s : List (Option α) × List WStatus) :
    Prop :=
  (∃ js : List α,
      s.1 = js.map some
        ++ List.replicate (s.2.countP WStatus.isActive) none)
  ∧ (∀ w ∈ s.2, w = WStatus.active 0 ∨ w = WStatus.stopped 1)
  ∧ s.2.length = W

theorem countP_replicate_eq {β : Type} (p : β → Bool) (n : Nat) (a : β) :
    (List.replicate n a).countP p = if p a then n else 0 := by
  induction n with
  | zero => simp
  | succ n ih =>
      rw [List.replicate_succ, List.countP_cons, ih]
      by_cases h : p a <;> simp [h]

theorem countP_set_stopped {ws : List WStatus} {i s t : Nat}
    (hi : ws.get? i = some (WStatus.active s)) :
    ws.countP WStatus.isActive
      = (ws.set i (WStatus.stopped t)).countP WStatus.isActive + 1 := by
  induction ws generalizing i with
  | nil => simp at hi
  | cons w ws ih =>
      cases i with
      | zero =>
          rw [List.get?] at hi
          injection hi with hw
          subst hw
          simp [List.countP_cons, WStatus.isActive]
      | succ i =>
          rw [List.get?] at hi
          have := ih hi
          simp only [List.set, List.countP_cons]
          omega

theorem poolInv_init {α : Type} (tasks : List α) (W : Nat) :
    PoolInv W (producerStream tasks W, initWorkers W) := by
  refine ⟨⟨tasks, ?_⟩, ?_, ?_⟩
  · show producerStream tasks W = tasks.map some ++ _
    unfold producerStream initWorkers
    rw [countP_replicate_eq]
    rfl
  · intro w hw
    exact Or.inl (List.eq_of_mem_replicate hw)
  · simp [initWorkers]

theorem poolInv_step {α : Type} {W : Nat}
    {s t : List (Option α) × List WStatus}
    (hinv : PoolInv W s) (hstep : PoolStep s t) : PoolInv W t := by
  obtain ⟨⟨js, hq⟩, hws, hlen⟩ := hinv
  cases hstep with
  | job j rest ws i s' hi =>
      dsimp only at hq hws hlen ⊢
      rcases js with _ | ⟨j', js'⟩
      · exfalso
        rw [List.map_nil, List.nil_append] at hq
        rcases hk : ws.countP WStatus.isActive with _ | k
        · rw [hk, List.replicate_zero] at hq
          exact List.noConfusion hq
        · rw [hk, List.replicate_succ] at hq
          injection hq with hhead _
          exact Option.noConfusion hhead
      · rw [List.map_cons, List.cons_append] at hq
        injection hq with _ htail
        exact ⟨⟨js', htail⟩, hws, hlen⟩
  | signal rest ws i s' hi =>
      dsimp only at hq hws hlen ⊢
      have hmem : WStatus.active s' ∈ ws := List.get?_mem hi
      have hs0 : s' = 0 := by
        rcases hws _ hmem with h | h
        · injection h with h2
        · exact WStatus.noConfusion h
      have hcount := countP_set_stopped (t := s' + 1) hi
      refine ⟨⟨[], ?_⟩, ?_, ?_⟩
      · rw [List.map_nil, List.nil_append]
        rcases js with _ | ⟨j', js'⟩
        · rw [List.map_nil, List.nil_append] at hq
          rw [hcount, List.replicate_succ] at hq
          injection hq with _ htail
        · exfalso
          rw [List.map_cons, List.cons_append] at hq
          injection hq with hhead _
          exact Option.noConfusion hhead
      · intro w hw
        rcases List.mem_or_eq_of_mem_set hw with h | h
        · exact hws w h
        · rw [h, hs0]
          exact Or.inr rfl
      · rw [List.length_set]
        exact hlen
  | closed ws i s' hi =>
      exfalso
      dsimp only at hq
      have hmem : WStatus.active s' ∈ ws := List.get?_mem hi
      have hpos : 0 < ws.countP WStatus.isActive :=
        List.countP_pos_iff.mpr ⟨_, hmem, rfl⟩
      rcases List.append_eq_nil.mp hq.symm with ⟨-, hrep⟩
      rw [List.replicate_eq_nil_iff] at hrep
      omega

theorem poolInv_reachable {α : Type} {W : Nat}
    {s t : List (Option α) × List WStatus}
    (hsteps : Relation.ReflTransGen PoolStep s t) (hinv : PoolInv W s) :
    PoolInv W t := by
  induction hsteps with
  | refl => exact hinv
  | tail _ hstep ih => exact poolInv_step ih hstep

theorem pool_terminal_all_stopped {α : Type} {W : Nat}
    {q : List (Option α)} {ws : List WStatus}
    (hinv : PoolInv W (q, ws)) (hterm : ∀ t, ¬ PoolStep (q, ws) t) :
    ∀ w ∈ ws, w = WStatus.stopped 1 := by
  obtain ⟨⟨js, hq⟩, hws, hlen⟩ := hinv
  dsimp only at hq hws hlen
  have hnoactive : ¬ ∃ i s, ws.get? i = some (WStatus.active s) := by
    rintro ⟨i, s, hi⟩
    have hmem : WStatus.active s ∈ ws := List.get?_mem hi
    have hpos : 0 < ws.countP WStatus.isActive :=
      List.countP_pos_iff.mpr ⟨_, hmem, rfl⟩
    rcases js with _ | ⟨j', js'⟩
    · rw [List.map_nil, List.nil_append] at hq
      rcases hk : ws.countP WStatus.isActive with _ | k
      · omega
      · rw [hk, List.replicate_succ] at hq
        subst hq
        exact hterm _ (PoolStep.signal _ ws i s hi)
    · rw [List.map_cons, List.cons_append] at hq
      subst hq
      exact hterm _ (PoolStep.job j' _ ws i s hi)
  intro w hw
  rcases hws w hw with h | h
  · exfalso
    obtain ⟨i, hi⟩ := List.get?_of_mem hw
    rw [h] at hi
    exact hnoactive ⟨i, 0, hi⟩
  · exact h

/-- C2: in every run of either pipeline: exactly one termination signal
per worker is enqueued (`W` `none` entries for `W` workers, no more and no
fewer); every termination signal sits in the enqueued stream only after
all `N` real jobs; and in every maximal schedule (a terminal state of the
dequeue relation), every one of the `W` workers has stopped having
observed exactly one termination signal. -/
theorem C2_shutdown_protocol (α : Type) (tasks : List α) (W : Nat)
    (s : List (Option α) × List WStatus)
    (hsteps : Relation.ReflTransGen PoolStep
      (producerStream tasks W, initWorkers W) s)
    (hterm : ∀ t, ¬ PoolStep s t) :
    (producerStream tasks W).countP Option.isNone = W
    ∧ (∀ i, (producerStream tasks W)[i]? = some none → tasks.length ≤ i)
    ∧ s.2.length = W
    ∧ (∀ w ∈ s.2, w = WStatus.stopped 1) := by
  have hinv : PoolInv W s :=
    poolInv_reachable hsteps (poolInv_init tasks W)
  obtain ⟨q, ws⟩ := s
  refine ⟨?_, ?_, hinv.2.2, pool_terminal_all_stopped hinv hterm⟩
  · unfold producerStream
    rw [List.countP_append, countP_replicate_eq]
    have hmap : (tasks.map some).countP Option.isNone = 0 := by
      rw [List.countP_eq_zero]
      intro a ha
      obtain ⟨b, -, hb⟩ := List.mem_map.mp ha
      rw [← hb]
      simp
    rw [hmap]
    simp
  · intro i hget
    by_contra hlt
    push_neg at hlt
    unfold producerStream at hget
    rw [List.getElem?_append_left (by rw [List.length_map]; exact hlt)] at hget
    rw [List.getElem?_map] at hget
    rcases hx : tasks[i]? with _ | v
    · rw [hx] at hget
      exact Option.noConfusion hget
    · rw [hx] at hget
      simp at hget

/-- Witness for C2: one task, one worker; the worker takes the job, then
the single termination signal, and the terminal state has it stopped with
exactly one observed signal. -/
theorem C2_witness :
    (producerStream ([0] : List Nat) 1).countP Option.isNone = 1
    ∧ (∀ i, (producerStream ([0] : List Nat) 1)[i]? = some none →
        ([0] : List Nat).length ≤ i)
    ∧ (([] : List (Option Nat)), [WStatus.stopped 1]).2.length = 1
    ∧ (∀ w ∈ ((([] : List (Option Nat)), [WStatus.stopped 1])).2,
        w = WStatus.stopped 1) := by
  have hstep1 : PoolStep ((producerStream ([0] : List Nat) 1),
      initWorkers 1) ([none], [WStatus.active 0]) :=
    PoolStep.job 0 [none] [WStatus.active 0] 0 0 rfl
  have hstep2 : PoolStep (([none] : List (Option Nat)),
      [WStatus.active 0]) ([], [WStatus.stopped 1]) :=
    PoolStep.signal [] [WStatus.active 0] 0 0 rfl
  have hsteps : Relation.ReflTransGen PoolStep
      ((producerStream ([0] : List Nat) 1), initWorkers 1)
      (([] : List (Option Nat)), [WStatus.stopped 1]) :=
    Relation.ReflTransGen.head hstep1
      (Relation.ReflTransGen.head hstep2 Relation.ReflTransGen.refl)
  have hterm : ∀ t, ¬ PoolStep ((([] : List (Option Nat)),
      [WStatus.stopped 1])) t := by
    intro t h
    cases h with
    | closed ws i s hi =>
        cases i with
        | zero =>
            injection hi with hbad
            exact WStatus.noConfusion hbad
        | succ n =>
            exact Option.noConfusion hi
  exact C2_shutdown_protocol Nat [0] 1 _ hsteps hterm

end Atvd
